import Mathlib

/-!
Verification of the FileDitto client-side job-orchestration layer.

The definitions below are a shallow embedding of the TypeScript source:
the job store (`useFiles`), the event handlers (`useConversion`), the
dispatcher (`ConversionService.startConversion`), the cancellation
coordinator (`App.cancelConversion`, `clearAllFiles`), the output path
rule (`TauriAPI.generateOutputPath`) and the format recommendation
engine (`FormatUtils.getRecommendedFormats`).

JavaScript particulars that matter and how they are modelled:
* a field that can hold `undefined` is an `Option`;
* a `Partial<FileItem>` update distinguishes an absent key (no change)
  from a key present with value `undefined` (overwrite with `undefined`),
  hence update fields of type `Option (Option _)`;
* `x || y` on strings falls through on the empty string;
* `if (x)` on a string is the test `x ≠ ""`, on an optional string it is
  `(x.getD "") ≠ ""`.
-/

set_option autoImplicit false

/-- Conversion status union from `src/types/tauri.ts` (`ConversionStatus`).
The `cancelled` variant is declared in the source but never written by any
code path. -/
inductive ConversionStatus where
  | pending
  | converting
  | completed
  | error
  | cancelled
  deriving DecidableEq, Repr

/-- File metadata record from `src/types/tauri.ts` (`FileMetadata`); all
fields are optional in the source. -/
structure FileMetadata where
  dimensions : Option String := none
  duration : Option String := none
  bitrate : Option String := none
  codec : Option String := none
  format : Option String := none
  size : Option Nat := none
  deriving DecidableEq, Repr

/-- Job record from `src/components/FileListItem.tsx` (`FileItem`).
`status` is `Option`-valued because the progress listener writes
`undefined` into it at runtime; `progress` is written by
`resetFilesForRetry` even though the interface does not declare it. -/
structure FileItem where
  id : String
  name : String
  path : String
  size : Nat
  type : String
  status : Option ConversionStatus
  outputFormat : Option String := none
  errorMessage : Option String := none
  metadata : Option FileMetadata := none
  conversionId : Option String := none
  progress : Option Nat := none
  deriving DecidableEq, Repr

/-- A `Partial<FileItem>` as the code actually passes it to the store's
update operations: `none` means the key is absent, `some none` means the
key is present with value `undefined`. Only the fields the code ever
updates through this path are included. -/
structure FileUpdate where
  status : Option (Option ConversionStatus) := none
  outputFormat : Option (Option String) := none
  errorMessage : Option (Option String) := none
  conversionId : Option (Option String) := none
  deriving DecidableEq, Repr

/-- JavaScript object spread `{ ...file, ...updates }`: a key present in
`updates` overwrites the field even when its value is `undefined`. -/
def applyUpdate (f : FileItem) (u : FileUpdate) : FileItem :=
  { f with
    status := u.status.getD f.status
    outputFormat := u.outputFormat.getD f.outputFormat
    errorMessage := u.errorMessage.getD f.errorMessage
    conversionId := u.conversionId.getD f.conversionId }

/-- Store operation `updateFileStatus` from `useFiles`: partial update of
the file whose `id` matches. -/
def updateFileStatus (fileId : String) (u : FileUpdate) (files : List FileItem) : List FileItem :=
  files.map fun f => if f.id = fileId then applyUpdate f u else f

/-- Store operation `updateFilesByConversionId` from `useFiles`: partial
update of every file whose `conversionId` matches. -/
def updateFilesByConversionId (conversionId : String) (u : FileUpdate) (files : List FileItem) : List FileItem :=
  files.map fun f => if f.conversionId = some conversionId then applyUpdate f u else f

/-- Payload of a `conversion_progress` event (`ConversionProgress` in
`src/types/tauri.ts`). -/
structure ConversionProgress where
  id : String
  progress : Nat
  status : String
  current_file : String := ""
  eta : Option String := none
  speed : Option String := none
  deriving DecidableEq, Repr

/-- Payload of a `conversion_complete` event (`ConversionResult` in
`src/types/tauri.ts`). -/
structure ConversionResult where
  id : String
  success : Bool
  output_path : Option String := none
  error : Option String := none
  deriving DecidableEq, Repr

/-- JavaScript `x || undefined` on an optional string: the empty string
collapses to `undefined`. -/
def jsOrUndefined (x : Option String) : Option String :=
  match x with
  | some s => if s = "" then none else some s
  | none => none

/-- Progress listener from `src/hooks/useConversion.ts`: writes
`{ status: progress.status === "Converting" ? "converting" : undefined }`
to every file holding the event's correlation id. -/
def onConversionProgress (p : ConversionProgress) (files : List FileItem) : List FileItem :=
  updateFilesByConversionId p.id
    { status := some (if p.status = "Converting" then some .converting else none) } files

/-- Completion listener from `src/hooks/useConversion.ts`: writes
`{ status: success ? "completed" : "error", errorMessage: error || undefined }`
to every file holding the event's correlation id. -/
def onConversionComplete (r : ConversionResult) (files : List FileItem) : List FileItem :=
  updateFilesByConversionId r.id
    { status := some (some (if r.success then .completed else .error))
      errorMessage := some (jsOrUndefined r.error) } files

/-- Cancellation coordinator `cancelConversion` from `App.tsx`:
`TauriAPI.cancelConversion` never throws (it catches and returns `false`),
so the engine call's outcome is a boolean `engineSuccess`. Only when the
engine reports success is the owning job marked; on failure (and on an
engine exception) the catch branches merely log and the store is left
unchanged. -/
def cancelConversion (engineSuccess : Bool) (conversionId : String) (files : List FileItem) : List FileItem :=
  if engineSuccess then
    updateFilesByConversionId conversionId
      { status := some (some .error)
        errorMessage := some (some "Conversion was cancelled by user") } files
  else files

/-- Store operation `resetFilesForRetry` from `useFiles`: maps over every
file unconditionally — there is no status filter in the source. -/
def resetFilesForRetry (files : List FileItem) : List FileItem :=
  files.map fun f =>
    { f with
      status := some .pending
      progress := none
      errorMessage := none
      conversionId := none
      outputFormat := none }

/-- The filter `clearAllFiles` applies to collect in-flight jobs:
`f.status === 'converting' && f.conversionId`. -/
def isConvertingWithId (f : FileItem) : Bool :=
  f.status = some ConversionStatus.converting && f.conversionId.isSome

/-- Store operation `clearAllFiles` from `useFiles`, as `App.tsx` invokes
it with `onCancel := cancelConversion`. For each converting file holding
a `conversionId` it awaits one `cancelConversion` call (which issues
exactly one engine cancel call and never rejects), then executes
`setFiles([])`. The result pairs the number of engine cancel calls issued
with the final collection; the intermediate store mutations performed by
the cancel callbacks are overwritten by the final `setFiles([])`. -/
def clearAllFiles (engineCancel : String → Bool) (files : List FileItem) : Nat × List FileItem :=
  let converting := files.filter isConvertingWithId
  let _afterCancels := converting.foldl
    (fun s f => cancelConversion (engineCancel (f.conversionId.getD "")) (f.conversionId.getD "") s)
    files
  (converting.length, [])

/-- Store operation `removeFile` from `useFiles`, as `App.tsx` invokes it
with `onCancel := cancelConversion`: a converting file with a
`conversionId` is first cancelled (the cancel's store update lands before
the removal's functional update), then the file is removed regardless. -/
def removeFile (engineSuccess : Bool) (fileId : String) (files : List FileItem) : List FileItem :=
  let files' :=
    match files.find? (fun f => f.id = fileId) with
    | some f =>
        if isConvertingWithId f then
          cancelConversion engineSuccess (f.conversionId.getD "") files
        else files
    | none => files
  files'.filter fun f => f.id ≠ fileId

/-- Update written by `ConversionService.startConversion` on a successful
dispatch: status `converting`, the returned conversion id, the chosen
format, and `errorMessage: undefined` (the key is present, clearing any
prior message). -/
def dispatchSuccessUpdate (conversionId fmt : String) : FileUpdate :=
  { status := some (some .converting)
    conversionId := some (some conversionId)
    outputFormat := some (some fmt)
    errorMessage := some none }

/-- Update written by `ConversionService.startConversion` when the engine
call throws. -/
def dispatchFailureUpdate (msg : String) : FileUpdate :=
  { status := some (some .error)
    errorMessage := some (some ("Failed to start conversion: " ++ msg)) }

/-- One iteration of the dispatch loop in
`ConversionService.startConversion`: files already `converting` are
skipped; otherwise the engine's convert call either returns a conversion
id or throws, and the corresponding per-id update is applied to the live
store. The engine outcome is modelled by `dispatch`, keyed by the file's
path. -/
def dispatchStep (dispatch : String → Except String String) (fmt : String)
    (s : List FileItem) (f : FileItem) : List FileItem :=
  if f.status = some .converting then s
  else
    match dispatch f.path with
    | .ok conversionId => updateFileStatus f.id (dispatchSuccessUpdate conversionId fmt) s
    | .error msg => updateFileStatus f.id (dispatchFailureUpdate msg) s

/-- `ConversionService.startConversion`: returns unchanged when the batch
is empty or no format is selected (`files.length === 0 || !selectedFormat`),
otherwise iterates the dispatch loop over the snapshot of the batch. -/
def startConversion (dispatch : String → Except String String) (fmt : String)
    (files : List FileItem) : List FileItem :=
  if files = [] ∨ fmt = "" then files
  else files.foldl (dispatchStep dispatch fmt) files

/-- The per-file result the dispatch loop produces for a file, as a
function of that file's own fields and engine outcome alone. -/
def dispatchOutcome (dispatch : String → Except String String) (fmt : String)
    (f : FileItem) : FileItem :=
  if f.status = some .converting then f
  else
    match dispatch f.path with
    | .ok conversionId => applyUpdate f (dispatchSuccessUpdate conversionId fmt)
    | .error msg => applyUpdate f (dispatchFailureUpdate msg)

/-- JavaScript `String.prototype.split` with a single-character
separator, on character lists: `""` splits to `[""]`, adjacent
separators and a trailing separator produce empty segments. -/
def splitOnChar (sep : Char) : List Char → List (List Char)
  | [] => [[]]
  | c :: rest =>
      if c = sep then [] :: splitOnChar sep rest
      else
        match splitOnChar sep rest with
        | [] => [[c]]
        | h :: t => (c :: h) :: t

/-- JavaScript `toLowerCase` (ASCII-relevant part). -/
def jsToLower (s : String) : String :=
  String.mk (s.data.map Char.toLower)

/-- Backslash-to-slash normalization performed by
`TauriAPI.generateOutputPath` (`inputPath.replace(/\\/g, '/')`). -/
def normalizeSeparators (p : String) : String :=
  String.mk (p.data.map fun c => if c = '\\' then '/' else c)

/-- Path split used by `TauriAPI.generateOutputPath`
(`.split('/')` after normalization). -/
def pathSegments (p : String) : List String :=
  (splitOnChar '/' (normalizeSeparators p).data).map String.mk

/-- The JavaScript expression
`fileName.substring(0, fileName.lastIndexOf('.'))` on the character list
of the name: everything strictly before the last dot, and `[]` when there
is no dot (`lastIndexOf` returns `-1` and `substring` clamps to `0`). -/
def takeBeforeLastDot (cs : List Char) : List Char :=
  (((cs.reverse).dropWhile (fun c => c ≠ '.')).drop 1).reverse

/-- The `baseName` computation of `TauriAPI.generateOutputPath`:
`fileName.substring(0, fileName.lastIndexOf('.')) || fileName`. -/
def jsBaseName (fileName : String) : String :=
  let pre := String.mk (takeBeforeLastDot fileName.data)
  if pre = "" then fileName else pre

/-- Modelled from the spec: the input filename with its last extension
stripped. A filename has an extension when a dot occurs after its first
character (a lone leading dot, as in a dotfile, does not begin an
extension); stripping removes the last dot and everything after it, and
a name without an extension is returned unchanged. -/
def stripLastExt (name : String) : String :=
  if '.' ∈ name.data.tail then String.mk (takeBeforeLastDot name.data) else name

/-- `TauriAPI.generateOutputPath` from `src/types/supportedFormats.ts`:
with a (truthy) output directory the result is
`outputDir ++ "/" ++ newFileName`; otherwise the last path segment is
replaced by `newFileName` and the segments re-joined with `/`. -/
def generateOutputPath (inputPath outputFormat : String) (outputDir : Option String) : String :=
  let pathParts := pathSegments inputPath
  let fileName := pathParts.getLastD ""
  let baseName := jsBaseName fileName
  let newFileName := baseName ++ "_converted." ++ outputFormat
  if (outputDir.getD "") ≠ "" then (outputDir.getD "") ++ "/" ++ newFileName
  else String.intercalate "/" (pathParts.dropLast ++ [newFileName])

/-- `TauriAPI.detectFileType`: classifies by the lowercased text after the
last dot of the whole path. -/
def detectFileType (filePath : String) : String :=
  let extension := jsToLower (String.mk ((splitOnChar '.' filePath.data).getLastD []))
  if ["mp4", "avi", "mov", "mkv", "webm", "flv", "wmv"].contains extension then "video"
  else if ["mp3", "wav", "aac", "flac", "ogg", "wma"].contains extension then "audio"
  else if ["jpg", "jpeg", "png", "gif", "bmp", "tiff", "webp"].contains extension then "image"
  else "unknown"

/-- The filename computation of `useFiles.handleFilePaths`:
`filePath.split(/[/\\]/).pop() || filePath`. -/
def jsFileName (filePath : String) : String :=
  let last := (pathSegments filePath).getLastD ""
  if last = "" then filePath else last

/-- Store operation `handleFilePaths` from `useFiles` (`addJobs`): one
pending job per path is appended in input order; metadata extraction is
best-effort (`metaOf` returns `none` on failure) and only feeds the
`metadata` and `size` fields; ids come from `crypto.randomUUID`, modelled
by `mkId` on the position. -/
def handleFilePaths (mkId : Nat → String) (metaOf : String → Option FileMetadata)
    (filePaths : List String) (files : List FileItem) : List FileItem :=
  files ++ (filePaths.enum.map fun ip =>
    { id := mkId ip.1
      name := jsFileName ip.2
      path := ip.2
      size := ((metaOf ip.2).bind (·.size)).getD 0
      type := detectFileType (jsFileName ip.2)
      status := some .pending
      metadata := metaOf ip.2 })

/-- File type detection pattern (`FileTypePattern` in
`src/types/supportedFormats.ts`). -/
structure FileTypePattern where
  extensions : List String
  mimeTypes : List String
  type : String
  deriving DecidableEq, Repr

/-- The `FILE_TYPE_PATTERNS` table, in source order. -/
def FILE_TYPE_PATTERNS : List FileTypePattern :=
  [ ⟨[".mp4", ".m4v"], ["video/mp4"], "video"⟩
  , ⟨[".webm"], ["video/webm"], "video"⟩
  , ⟨[".avi"], ["video/x-msvideo"], "video"⟩
  , ⟨[".mov"], ["video/quicktime"], "video"⟩
  , ⟨[".mkv"], ["video/x-matroska"], "video"⟩
  , ⟨[".flv"], ["video/x-flv"], "video"⟩
  , ⟨[".wmv"], ["video/x-ms-wmv"], "video"⟩
  , ⟨[".3gp"], ["video/3gpp"], "video"⟩
  , ⟨[".mp3"], ["audio/mpeg"], "audio"⟩
  , ⟨[".aac"], ["audio/aac"], "audio"⟩
  , ⟨[".wav"], ["audio/wav"], "audio"⟩
  , ⟨[".flac"], ["audio/flac"], "audio"⟩
  , ⟨[".ogg"], ["audio/ogg"], "audio"⟩
  , ⟨[".wma"], ["audio/x-ms-wma"], "audio"⟩
  , ⟨[".m4a"], ["audio/mp4"], "audio"⟩
  , ⟨[".opus"], ["audio/opus"], "audio"⟩
  , ⟨[".jpg", ".jpeg"], ["image/jpeg"], "image"⟩
  , ⟨[".png"], ["image/png"], "image"⟩
  , ⟨[".webp"], ["image/webp"], "image"⟩
  , ⟨[".gif"], ["image/gif"], "image"⟩
  , ⟨[".bmp"], ["image/bmp"], "image"⟩
  , ⟨[".tiff", ".tif"], ["image/tiff"], "image"⟩
  , ⟨[".svg"], ["image/svg+xml"], "image"⟩ ]

/-- The `SUPPORTED_FORMATS` record as an ordered association of format
key to media type (`Object.entries` iterates keys in insertion order;
only the `type` field is consulted by the functions modelled here). -/
def SUPPORTED_FORMATS_TYPES : List (String × String) :=
  [ ("mp4", "video"), ("webm", "video"), ("avi", "video"), ("mov", "video")
  , ("mkv", "video"), ("flv", "video"), ("wmv", "video"), ("3gp", "video")
  , ("mp3", "audio"), ("aac", "audio"), ("wav", "audio"), ("flac", "audio")
  , ("ogg", "audio"), ("wma", "audio"), ("m4a", "audio"), ("opus", "audio")
  , ("jpg", "image"), ("jpeg", "image"), ("png", "image"), ("webp", "image")
  , ("gif", "image"), ("bmp", "image"), ("tiff", "image"), ("svg", "image") ]

/-- `BACKEND_SUPPORTED_FORMATS` from `src/types/supportedFormats.ts`:
only these four (all video) formats are currently supported by the
backend. -/
def BACKEND_SUPPORTED_FORMATS : List String := ["mp4", "webm", "avi", "mov"]

/-- `FormatUtils.getFormatsByType`. -/
def getFormatsByType (t : String) : List String :=
  (SUPPORTED_FORMATS_TYPES.filter (fun p => p.2 = t)).map (·.1)

/-- `FormatUtils.getBackendSupportedFormatsByType`. -/
def getBackendSupportedFormatsByType (t : String) : List String :=
  (getFormatsByType t).filter (fun fmt => BACKEND_SUPPORTED_FORMATS.contains fmt)

/-- `FormatUtils.detectMediaType`: MIME detection first (skipped when the
MIME string is absent or empty), extension detection as fallback
(skipped when the name has an empty last dot-segment). -/
def detectMediaType (fileName : String) (mimeType : Option String) : Option String :=
  let extension := String.mk ((splitOnChar '.' (jsToLower fileName).data).getLastD [])
  let byMime :=
    match mimeType with
    | some mt =>
        if mt ≠ "" then
          (FILE_TYPE_PATTERNS.find? (fun (p : FileTypePattern) => p.mimeTypes.contains mt)).map
            (fun (p : FileTypePattern) => p.type)
        else none
    | none => none
  match byMime with
  | some t => some t
  | none =>
      if extension ≠ "" then
        (FILE_TYPE_PATTERNS.find? (fun (p : FileTypePattern) => p.extensions.contains ("." ++ extension))).map
          (fun (p : FileTypePattern) => p.type)
      else none

/-- Argument shape of `FormatUtils.getRecommendedFormats`:
`{ name: string; type?: string }`. -/
structure NamedFile where
  name : String
  type : Option String := none
  deriving DecidableEq, Repr

/-- Insertion into a JavaScript `Set` modelled on lists: appends the
element unless already present, preserving insertion order. -/
def setAdd (acc : List String) (t : String) : List String :=
  if t ∈ acc then acc else acc ++ [t]

/-- The `detectedTypes` set built by `getRecommendedFormats`. -/
def detectedTypes (files : List NamedFile) : List String :=
  files.foldl
    (fun acc f =>
      match detectMediaType f.name f.type with
      | some t => setAdd acc t
      | none => acc)
    []

/-- The switch body of `getRecommendedFormats` for one detected type:
pushes the priority formats of that type that appear in the backend list. -/
def recStep (recs : List String) (t : String) : List String :=
  let supported := getBackendSupportedFormatsByType t
  if t = "video" then
    recs ++ (if supported.contains "mp4" then ["mp4"] else [])
         ++ (if supported.contains "webm" then ["webm"] else [])
  else if t = "audio" then
    recs ++ (if supported.contains "mp3" then ["mp3"] else [])
         ++ (if supported.contains "aac" then ["aac"] else [])
  else if t = "image" then
    recs ++ (if supported.contains "jpg" then ["jpg"] else [])
         ++ (if supported.contains "webp" then ["webp"] else [])
  else recs

/-- `FormatUtils.getRecommendedFormats`: collect detected media types in
first-occurrence order, push recommendations per type, then deduplicate
(`[...new Set(recommendations)]`). -/
def getRecommendedFormats (files : List NamedFile) : List String :=
  ((detectedTypes files).foldl recStep []).foldl setAdd []

/-- The store operations and incoming events that mutate the job
collection, with their external collaborators' outcomes as parameters. -/
inductive StoreOp where
  | addFiles (mkId : Nat → String) (metaOf : String → Option FileMetadata) (filePaths : List String)
  | remove (engineSuccess : Bool) (fileId : String)
  | clearAll (engineCancel : String → Bool)
  | resetForRetry
  | startConv (dispatch : String → Except String String) (fmt : String)
  | cancelOne (engineSuccess : Bool) (conversionId : String)
  | progressEvent (p : ConversionProgress)
  | completeEvent (r : ConversionResult)

/-- The effect of each store operation on the job collection. -/
def step : StoreOp → List FileItem → List FileItem
  | .addFiles mkId metaOf ps, files => handleFilePaths mkId metaOf ps files
  | .remove ok fid, files => removeFile ok fid files
  | .clearAll ec, files => (clearAllFiles ec files).2
  | .resetForRetry, files => resetFilesForRetry files
  | .startConv d fmt, files => startConversion d fmt files
  | .cancelOne ok cid, files => cancelConversion ok cid files
  | .progressEvent p, files => onConversionProgress p files
  | .completeEvent r, files => onConversionComplete r files

/-- The status set named by the spec invariant. -/
def statusInSpec (f : FileItem) : Prop :=
  f.status = some .pending ∨ f.status = some .converting ∨
  f.status = some .completed ∨ f.status = some .error

instance (f : FileItem) : Decidable (statusInSpec f) := by
  unfold statusInSpec; infer_instance

/-- A job in flight: dispatched with correlation id `c1`. -/
def sampleConverting : FileItem :=
  { id := "f1", name := "clip.mov", path := "/in/clip.mov", size := 0, type := "video"
    status := some .converting, outputFormat := some "mp4", conversionId := some "c1" }

/-- A job already completed, still holding its correlation id `c2`. -/
def sampleCompleted : FileItem :=
  { id := "f2", name := "b.mov", path := "/in/b.mov", size := 0, type := "video"
    status := some .completed, outputFormat := some "mp4", conversionId := some "c2" }

/-- A second in-flight job, correlation id `c3`. -/
def sampleConvertingB : FileItem :=
  { id := "f3", name := "d.mov", path := "/in/d.mov", size := 0, type := "video"
    status := some .converting, outputFormat := some "mp4", conversionId := some "c3" }

/-- A pending job on path `/in/a.mov`. -/
def samplePendingA : FileItem :=
  { id := "fa", name := "a.mov", path := "/in/a.mov", size := 0, type := "video"
    status := some .pending }

/-- A pending job on path `/in/b2.mov`. -/
def samplePendingB : FileItem :=
  { id := "fb", name := "b2.mov", path := "/in/b2.mov", size := 0, type := "video"
    status := some .pending }

/-- Dispatch environment that throws for `/in/a.mov` and succeeds for any
other path. -/
def failAOnly : String → Except String String :=
  fun p => if p = "/in/a.mov" then .error "boom" else .ok "c9"

/-- A successful completion event for correlation id `c1`. -/
def completeC1ok : ConversionResult :=
  { id := "c1", success := true, output_path := some "/in/clip_converted.mp4" }

/-- A progress event for `c1` whose status text is `Converting`. -/
def progressC1conv : ConversionProgress :=
  { id := "c1", progress := 50, status := "Converting" }

/-- A progress event for `c1` whose status text is not `Converting`. -/
def progressC1done : ConversionProgress :=
  { id := "c1", progress := 100, status := "Finalizing" }

/-- A progress event for `c2` whose status text is `Converting`. -/
def progressC2conv : ConversionProgress :=
  { id := "c2", progress := 50, status := "Converting" }

example : generateOutputPath "/in/clip.mov" "mp4" none = "/in/clip_converted.mp4" := by decide
example : generateOutputPath "/in/clip.mov" "mp4" (some "/out") = "/out/clip_converted.mp4" := by decide
example : generateOutputPath "C:\\in\\clip.mov" "mp4" none = "C:/in/clip_converted.mp4" := by decide
example : jsBaseName ".bashrc" = ".bashrc" := by decide
example : stripLastExt ".bashrc" = ".bashrc" := by decide
example : jsBaseName "" = "" := by decide
example : getRecommendedFormats [⟨"movie.mp4", none⟩] = ["mp4", "webm"] := by decide
example : getRecommendedFormats [⟨"song.mp3", none⟩] = [] := by decide
example : getRecommendedFormats [⟨"pic.jpg", none⟩] = [] := by decide
example : detectMediaType "song.mp3" (some "audio/mpeg") = some "audio" := by decide
example :
    (cancelConversion true "c1" [sampleConverting]).map FileItem.errorMessage =
      [some "Conversion was cancelled by user"] := by decide
example : cancelConversion false "c1" [sampleConverting] = [sampleConverting] := by decide
example :
    (onConversionComplete completeC1ok (cancelConversion true "c1" [sampleConverting])).map
      FileItem.status = [some .completed] := by decide
example :
    (onConversionProgress progressC2conv [sampleCompleted]).map FileItem.status =
      [some .converting] := by decide
example :
    (onConversionProgress progressC1done [sampleConverting]).map FileItem.status = [none] := by
  decide
example : (resetFilesForRetry [sampleConverting]).map FileItem.status = [some .pending] := by decide
example :
    (startConversion failAOnly "mp4" [samplePendingA, samplePendingB]).map FileItem.status =
      [some .error, some .converting] := by decide
example : (clearAllFiles (fun _ => false) [sampleConverting, sampleConvertingB]).1 = 2 := by decide

theorem dropWhile_drop_eq_nil_iff (r : List Char) :
    ((r.dropWhile (fun c => c ≠ '.')).drop 1) = [] ↔ '.' ∉ r.dropLast := by
  induction r with
  | nil => simp
  | cons c r' ih =>
      rw [List.dropWhile_cons]
      by_cases hc : c = '.'
      · subst hc
        cases r' with
        | nil => simp
        | cons d r'' => simp
      · have hp : (decide (c ≠ '.')) = true := by simp [hc]
        rw [if_pos hp]
        cases r' with
        | nil => simp
        | cons d r'' =>
            rw [ih, List.dropLast_cons₂]
            simp only [List.mem_cons, not_or]
            exact ⟨fun h => ⟨fun he => hc he.symm, h⟩, fun h => h.2⟩

theorem takeBeforeLastDot_eq_nil_iff (cs : List Char) :
    takeBeforeLastDot cs = [] ↔ '.' ∉ cs.tail := by
  unfold takeBeforeLastDot
  rw [List.reverse_eq_nil_iff, dropWhile_drop_eq_nil_iff, List.dropLast_reverse,
    List.mem_reverse]

theorem mk_eq_empty_iff (cs : List Char) : String.mk cs = "" ↔ cs = [] := by
  constructor
  · intro h
    have := congrArg String.data h
    simpa using this
  · rintro rfl
    rfl

/-- The `baseName` the code computes agrees with the spec's description of
it on every filename: `substring(0, lastIndexOf('.')) || fileName` equals
"the filename with its last extension stripped", where a filename has an
extension exactly when a dot occurs after its first character. -/
theorem jsBaseName_eq_stripLastExt (name : String) : jsBaseName name = stripLastExt name := by
  unfold jsBaseName stripLastExt
  by_cases h : '.' ∈ name.data.tail
  · have hne : ¬ takeBeforeLastDot name.data = [] := by
      rw [takeBeforeLastDot_eq_nil_iff]; exact fun hn => hn h
    rw [if_pos h, if_neg]
    rw [mk_eq_empty_iff]
    exact hne
  · have hnil : takeBeforeLastDot name.data = [] := (takeBeforeLastDot_eq_nil_iff _).mpr h
    rw [if_neg h, if_pos]
    rw [mk_eq_empty_iff]
    exact hnil

/-- C6: `generateOutputPath` follows the spec's output path rule. With a
configured (truthy, i.e. nonempty) output directory the result is
`"${outputDir}/${baseName}_converted.${ext}"`; otherwise the filename in
the input's own directory is replaced by the new name, with backslashes
normalized to `/` and `/` as the separator; `baseName` is the input
filename with its last extension stripped. The spec's two concrete
examples hold. -/
theorem generateOutputPath_matches_rule :
    (∀ p fmt d, d ≠ "" →
      generateOutputPath p fmt (some d) =
        d ++ "/" ++ (stripLastExt ((pathSegments p).getLastD "") ++ "_converted." ++ fmt)) ∧
    (∀ p fmt,
      generateOutputPath p fmt none =
        String.intercalate "/" ((pathSegments p).dropLast ++
          [stripLastExt ((pathSegments p).getLastD "") ++ "_converted." ++ fmt])) ∧
    generateOutputPath "/in/clip.mov" "mp4" none = "/in/clip_converted.mp4" ∧
    generateOutputPath "/in/clip.mov" "mp4" (some "/out") = "/out/clip_converted.mp4" := by
  refine ⟨?_, ?_, by decide, by decide⟩
  · intro p fmt d hd
    simp only [generateOutputPath, jsBaseName_eq_stripLastExt, Option.getD_some]
    rw [if_pos hd]
  · intro p fmt
    simp only [generateOutputPath, jsBaseName_eq_stripLastExt, Option.getD_none]
    rw [if_neg (by simp)]

theorem generateOutputPath_matches_rule_inst :
    ("/out" : String) ≠ "" ∧
    generateOutputPath "/in/clip.mov" "mp4" (some "/out") =
      "/out" ++ "/" ++ (stripLastExt ((pathSegments "/in/clip.mov").getLastD "") ++
        "_converted." ++ "mp4") :=
  ⟨by decide, generateOutputPath_matches_rule.1 "/in/clip.mov" "mp4" "/out" (by decide)⟩

/-- C10 counterexample: for the input path `"/in/"` the final path
segment is empty, hence contains no dot, and the `baseName` the code uses
for it is the empty string — contradicting the claim that the fallback
never yields an empty `baseName` on dot-free final segments. -/
theorem generateOutputPath_empty_segment_base_empty :
    ('.' ∉ ((pathSegments "/in/").getLastD "").data) ∧
    jsBaseName ((pathSegments "/in/").getLastD "") = "" ∧
    generateOutputPath "/in/" "mp4" none = "/in/_converted.mp4" := by
  refine ⟨by decide, by decide, by decide⟩

/-- C10 (amended): for every input path whose final segment is nonempty
and contains no dot, `baseName` falls back to the entire filename (then
nonempty), and the result is the original filename with
`_converted.<format>` appended, in the input's own directory. When the
final segment is empty the fallback still applies but yields the empty
string. The function is a total Lean definition, defined on every string
input. -/
theorem generateOutputPath_no_extension_fallback (p fmt : String)
    (hne : (pathSegments p).getLastD "" ≠ "")
    (hdot : '.' ∉ ((pathSegments p).getLastD "").data) :
    jsBaseName ((pathSegments p).getLastD "") = (pathSegments p).getLastD "" ∧
    jsBaseName ((pathSegments p).getLastD "") ≠ "" ∧
    generateOutputPath p fmt none =
      String.intercalate "/" ((pathSegments p).dropLast ++
        [(pathSegments p).getLastD "" ++ "_converted." ++ fmt]) := by
  have hb : jsBaseName ((pathSegments p).getLastD "") = (pathSegments p).getLastD "" := by
    unfold jsBaseName
    have hnil : takeBeforeLastDot ((pathSegments p).getLastD "").data = [] := by
      rw [takeBeforeLastDot_eq_nil_iff]
      intro hmem
      exact hdot (List.mem_of_mem_tail hmem)
    rw [hnil]
    simp
  refine ⟨hb, by rw [hb]; exact hne, ?_⟩
  simp only [generateOutputPath, Option.getD_none]
  rw [hb, if_neg (by simp)]

theorem generateOutputPath_no_extension_fallback_inst :
    ((pathSegments "/in/clip").getLastD "" ≠ "") ∧
    ('.' ∉ ((pathSegments "/in/clip").getLastD "").data) ∧
    generateOutputPath "/in/clip" "mp4" none =
      String.intercalate "/" ((pathSegments "/in/clip").dropLast ++
        [(pathSegments "/in/clip").getLastD "" ++ "_converted." ++ "mp4"]) :=
  ⟨by decide, by decide,
    (generateOutputPath_no_extension_fallback "/in/clip" "mp4" (by decide) (by decide)).2.2⟩

theorem updateFilesByConversionId_getElem (cid : String) (u : FileUpdate)
    (files : List FileItem) (i : Nat) (f : FileItem) (hf : files[i]? = some f) :
    (updateFilesByConversionId cid u files)[i]? =
      some (if f.conversionId = some cid then applyUpdate f u else f) := by
  unfold updateFilesByConversionId
  rw [List.getElem?_map, hf]
  rfl

/-- C1 counterexample: starting from a converting job with correlation id
`c1`, a local cancellation (engine cancel reporting success) marks it
`error` — with message `"Conversion was cancelled by user"`, not
`"cancelled by user"` — and a completion event arriving afterwards for
`c1` is NOT dropped: it overwrites the status to `completed` and clears
the error message. -/
theorem completion_after_cancel_not_dropped :
    (cancelConversion true "c1" [sampleConverting]).map FileItem.status = [some .error] ∧
    (cancelConversion true "c1" [sampleConverting]).map FileItem.errorMessage ≠
      [some "cancelled by user"] ∧
    (onConversionComplete completeC1ok (cancelConversion true "c1" [sampleConverting])).map
      FileItem.status = [some .completed] ∧
    (onConversionComplete completeC1ok (cancelConversion true "c1" [sampleConverting])).map
      FileItem.errorMessage = [none] := by
  refine ⟨by decide, by decide, by decide, by decide⟩

/-- C1 (amended): there is no tie-break rule — last write wins. For every
job holding the event's correlation id, a completion event arriving after
a local cancellation is applied normally: the status is overwritten to
`completed` or `error` according to the event's success flag and the
error message is overwritten with the event's error (cleared on success);
the cancellation's terminal state and message do not survive. -/
theorem completion_after_cancel_last_write_wins (r : ConversionResult) (cid : String)
    (files : List FileItem) (hid : r.id = cid) (i : Nat) (f : FileItem)
    (hf : files[i]? = some f) (hcid : f.conversionId = some cid) :
    (onConversionComplete r (cancelConversion true cid files))[i]? =
      some { f with
        status := some (if r.success then .completed else .error)
        errorMessage := jsOrUndefined r.error } := by
  subst hid
  unfold onConversionComplete cancelConversion
  rw [if_pos rfl]
  unfold updateFilesByConversionId
  rw [List.getElem?_map, List.getElem?_map, hf]
  simp only [Option.map_some']
  rw [if_pos hcid]
  have hc2 : (applyUpdate f
      { status := some (some .error)
        errorMessage := some (some "Conversion was cancelled by user") }).conversionId =
      some r.id := hcid
  rw [if_pos hc2]
  rfl

theorem completion_after_cancel_last_write_wins_inst :
    completeC1ok.id = "c1" ∧
    ([sampleConverting][0]? = some sampleConverting) ∧
    sampleConverting.conversionId = some "c1" ∧
    (onConversionComplete completeC1ok (cancelConversion true "c1" [sampleConverting]))[0]? =
      some { sampleConverting with
        status := some (if completeC1ok.success then .completed else .error)
        errorMessage := jsOrUndefined completeC1ok.error } :=
  ⟨rfl, rfl, rfl,
    completion_after_cancel_last_write_wins completeC1ok "c1" [sampleConverting] rfl 0
      sampleConverting rfl rfl⟩

/-- C2 counterexample: a progress event whose status text is `Converting`,
delivered for a job already in the terminal state `completed`, is not
ignored: it changes the job's status to `converting`. -/
theorem progress_event_changes_terminal_status :
    sampleCompleted.status = some .completed ∧
    (onConversionProgress progressC2conv [sampleCompleted]).map FileItem.status =
      [some .converting] := by
  refine ⟨by decide, by decide⟩

/-- C2 (amended): a progress event always overwrites the status of every
job holding its correlation id — to `converting` when the event's status
text is `"Converting"` and to `undefined` otherwise — regardless of
whether the job is terminal; jobs with a different correlation id are
unchanged. -/
theorem progress_event_overwrites_status (p : ConversionProgress) (files : List FileItem)
    (i : Nat) (f : FileItem) (hf : files[i]? = some f) :
    (f.conversionId = some p.id →
      (onConversionProgress p files)[i]? =
        some { f with
          status := if p.status = "Converting" then some .converting else none }) ∧
    (f.conversionId ≠ some p.id → (onConversionProgress p files)[i]? = some f) := by
  constructor
  · intro h
    unfold onConversionProgress
    rw [updateFilesByConversionId_getElem p.id _ files i f hf, if_pos h]
    rfl
  · intro h
    unfold onConversionProgress
    rw [updateFilesByConversionId_getElem p.id _ files i f hf, if_neg h]

theorem progress_event_overwrites_status_inst :
    ([sampleCompleted][0]? = some sampleCompleted) ∧
    sampleCompleted.conversionId = some progressC2conv.id ∧
    (onConversionProgress progressC2conv [sampleCompleted])[0]? =
      some { sampleCompleted with
        status := if progressC2conv.status = "Converting" then some .converting else none } :=
  ⟨rfl, rfl,
    (progress_event_overwrites_status progressC2conv [sampleCompleted] 0 sampleCompleted rfl).1
      rfl⟩

/-- C4 counterexample: `resetFilesForRetry` does not leave a `converting`
job untouched: it resets it to `pending` and clears its derived fields. -/
theorem resetFilesForRetry_resets_converting_job :
    sampleConverting.status = some .converting ∧
    resetFilesForRetry [sampleConverting] ≠ [sampleConverting] ∧
    (resetFilesForRetry [sampleConverting]).map FileItem.status = [some .pending] ∧
    (resetFilesForRetry [sampleConverting]).map FileItem.conversionId = [none] := by
  refine ⟨by decide, by decide, by decide, by decide⟩

/-- C4 (amended): `resetFilesForRetry` returns EVERY job — terminal or
`converting` alike — to `pending` and clears `progress`, `errorMessage`,
`conversionId` and `outputFormat`, leaving the remaining fields intact;
the collection's length is preserved. -/
theorem resetFilesForRetry_resets_every_job (files : List FileItem) (i : Nat) (f : FileItem)
    (hf : files[i]? = some f) :
    (resetFilesForRetry files)[i]? =
      some { f with
        status := some .pending
        progress := none
        errorMessage := none
        conversionId := none
        outputFormat := none } ∧
    (resetFilesForRetry files).length = files.length := by
  constructor
  · unfold resetFilesForRetry
    rw [List.getElem?_map, hf]
    rfl
  · simp [resetFilesForRetry]

theorem resetFilesForRetry_resets_every_job_inst :
    ([sampleConverting][0]? = some sampleConverting) ∧
    (resetFilesForRetry [sampleConverting])[0]? =
      some { sampleConverting with
        status := some .pending
        progress := none
        errorMessage := none
        conversionId := none
        outputFormat := none } :=
  ⟨rfl, (resetFilesForRetry_resets_every_job [sampleConverting] 0 sampleConverting rfl).1⟩

/-- C5 counterexample: when the engine's cancel call reports failure, the
owning job is left completely unchanged (still `converting`, no error
mark) — the transition is not independent of the call's result; and when
it reports success the message written is
`"Conversion was cancelled by user"`, not `"cancelled by user"`. -/
theorem cancelConversion_failure_leaves_job :
    sampleConverting.status = some .converting ∧
    cancelConversion false "c1" [sampleConverting] = [sampleConverting] ∧
    (cancelConversion true "c1" [sampleConverting]).map FileItem.errorMessage ≠
      [some "cancelled by user"] := by
  refine ⟨by decide, by decide, by decide⟩

/-- C5 (amended): `cancelOne` issues the engine's cancel call and marks
the owning job `status=error`,
`errorMessage="Conversion was cancelled by user"` ONLY when that call
reports success; when it reports failure (or throws, which the wrapper
converts to failure) the store is left unchanged. Jobs not holding the
correlation id are never touched. -/
theorem cancelConversion_error_only_on_engine_success (cid : String) (files : List FileItem) :
    cancelConversion false cid files = files ∧
    (∀ (i : Nat) (f : FileItem), files[i]? = some f → f.conversionId = some cid →
      (cancelConversion true cid files)[i]? =
        some { f with
          status := some .error
          errorMessage := some "Conversion was cancelled by user" }) ∧
    (∀ (i : Nat) (f : FileItem), files[i]? = some f → f.conversionId ≠ some cid →
      (cancelConversion true cid files)[i]? = some f) := by
  refine ⟨rfl, ?_, ?_⟩
  · intro i f hf hcid
    unfold cancelConversion
    rw [if_pos rfl, updateFilesByConversionId_getElem cid _ files i f hf, if_pos hcid]
    rfl
  · intro i f hf hcid
    unfold cancelConversion
    rw [if_pos rfl, updateFilesByConversionId_getElem cid _ files i f hf, if_neg hcid]

theorem cancelConversion_error_only_on_engine_success_inst :
    ([sampleConverting][0]? = some sampleConverting) ∧
    sampleConverting.conversionId = some "c1" ∧
    (cancelConversion true "c1" [sampleConverting])[0]? =
      some { sampleConverting with
        status := some .error
        errorMessage := some "Conversion was cancelled by user" } :=
  ⟨rfl, rfl,
    (cancelConversion_error_only_on_engine_success "c1" [sampleConverting]).2.1 0
      sampleConverting rfl rfl⟩

/-- C7: `clearAllFiles` issues exactly one engine cancel call per
`converting` job holding a correlation id — the count equals
`countP isConvertingWithId` — and the final collection is always empty,
whatever each individual cancel call returns. Concretely, with two
converting jobs and an engine that cancels `c1` successfully but fails on
`c3`, exactly two calls are issued and the collection still ends empty. -/
theorem clearAllFiles_cancels_each_and_empties :
    (∀ (engineCancel : String → Bool) (files : List FileItem),
      (clearAllFiles engineCancel files).1 = files.countP isConvertingWithId ∧
      (clearAllFiles engineCancel files).2 = []) ∧
    (clearAllFiles (fun cid => cid == "c1") [sampleConverting, sampleConvertingB]).1 = 2 ∧
    (clearAllFiles (fun cid => cid == "c1") [sampleConverting, sampleConvertingB]).2 = [] := by
  refine ⟨fun ec files => ⟨?_, rfl⟩, by decide, by decide⟩
  show (files.filter isConvertingWithId).length = files.countP isConvertingWithId
  rw [List.countP_eq_length_filter]

/-- Restriction under which an operation is supposed to keep every status
inside the spec's four-element set: every operation qualifies except a
progress event whose status text differs from `"Converting"`. -/
def opKeepsSpecStatus : StoreOp → Prop
  | .progressEvent p => p.status = "Converting"
  | _ => True

theorem statusInSpec_map (files : List FileItem) (g : FileItem → FileItem)
    (h : ∀ f ∈ files, statusInSpec f) (hg : ∀ f, statusInSpec f → statusInSpec (g f)) :
    ∀ f ∈ files.map g, statusInSpec f := by
  intro f hf
  rcases List.mem_map.mp hf with ⟨a, ha, rfl⟩
  exact hg a (h a ha)

theorem statusInSpec_applyUpdate_of (u : FileUpdate) (f : FileItem) (hf : statusInSpec f)
    (hu : u.status = none ∨ ∃ v, u.status = some (some v) ∧ v ≠ ConversionStatus.cancelled) :
    statusInSpec (applyUpdate f u) := by
  have hs : (applyUpdate f u).status = u.status.getD f.status := rfl
  rcases hu with h | ⟨v, hv, hvc⟩
  · unfold statusInSpec at hf ⊢
    rw [hs, h, Option.getD_none]
    exact hf
  · unfold statusInSpec
    rw [hs, hv, Option.getD_some]
    cases v
    · exact Or.inl rfl
    · exact Or.inr (Or.inl rfl)
    · exact Or.inr (Or.inr (Or.inl rfl))
    · exact Or.inr (Or.inr (Or.inr rfl))
    · exact absurd rfl hvc

theorem statusInSpec_cancelConversion (ok : Bool) (cid : String) (files : List FileItem)
    (h : ∀ f ∈ files, statusInSpec f) : ∀ f ∈ cancelConversion ok cid files, statusInSpec f := by
  cases ok
  · simpa [cancelConversion] using h
  · unfold cancelConversion updateFilesByConversionId
    rw [if_pos rfl]
    refine statusInSpec_map files _ h fun f hf => ?_
    by_cases hc : f.conversionId = some cid
    · rw [if_pos hc]
      exact statusInSpec_applyUpdate_of _ f hf (Or.inr ⟨.error, rfl, by simp⟩)
    · rw [if_neg hc]
      exact hf

theorem statusInSpec_foldl (stepf : List FileItem → FileItem → List FileItem)
    (hstep : ∀ s a, (∀ f ∈ s, statusInSpec f) → ∀ f ∈ stepf s a, statusInSpec f)
    (l : List FileItem) :
    ∀ (s : List FileItem), (∀ f ∈ s, statusInSpec f) → ∀ f ∈ l.foldl stepf s, statusInSpec f := by
  induction l with
  | nil => intro s hs; simpa using hs
  | cons a l ih => intro s hs; exact ih _ (hstep s a hs)

/-- C3 (amended): every store operation and incoming event keeps every
job's status inside `{pending, converting, completed, error}` — except a
progress event whose status text is not `"Converting"`, which writes
`undefined` into the status of every job holding its correlation id. -/
theorem step_preserves_status_in_spec (op : StoreOp) (files : List FileItem)
    (hop : opKeepsSpecStatus op) (h : ∀ f ∈ files, statusInSpec f) :
    ∀ f ∈ step op files, statusInSpec f := by
  cases op with
  | addFiles mkId metaOf ps =>
      intro f hf
      rcases List.mem_append.mp hf with hl | hr
      · exact h f hl
      · rcases List.mem_map.mp hr with ⟨a, _, rfl⟩
        exact Or.inl rfl
  | remove ok fid =>
      intro f hf
      have hf' := List.mem_of_mem_filter hf
      revert hf'
      show f ∈ (match files.find? (fun g => g.id = fid) with
        | some g => if isConvertingWithId g then
            cancelConversion ok (g.conversionId.getD "") files else files
        | none => files) → statusInSpec f
      cases hfind : files.find? (fun g => g.id = fid) with
      | none => exact fun hf' => h f hf'
      | some g =>
          show f ∈ (if isConvertingWithId g then
              cancelConversion ok (g.conversionId.getD "") files else files) → statusInSpec f
          by_cases hconv : isConvertingWithId g
          · rw [if_pos hconv]
            exact fun hf' => statusInSpec_cancelConversion ok _ files h f hf'
          · rw [if_neg hconv]
            exact fun hf' => h f hf'
  | clearAll ec => intro f hf; exact absurd hf (List.not_mem_nil f)
  | resetForRetry =>
      refine statusInSpec_map files _ h fun f _ => Or.inl rfl
  | startConv dispatch fmt =>
      show ∀ f ∈ startConversion dispatch fmt files, statusInSpec f
      unfold startConversion
      by_cases hg : files = [] ∨ fmt = ""
      · rw [if_pos hg]; exact h
      · rw [if_neg hg]
        refine statusInSpec_foldl _ ?_ files files h
        intro s a hs
        unfold dispatchStep
        by_cases hc : a.status = some ConversionStatus.converting
        · rw [if_pos hc]; exact hs
        · rw [if_neg hc]
          cases dispatch a.path with
          | ok cid =>
              refine statusInSpec_map s _ hs fun f hf => ?_
              by_cases hid : f.id = a.id
              · rw [if_pos hid]
                exact statusInSpec_applyUpdate_of _ f hf (Or.inr ⟨.converting, rfl, by simp⟩)
              · rw [if_neg hid]; exact hf
          | error msg =>
              refine statusInSpec_map s _ hs fun f hf => ?_
              by_cases hid : f.id = a.id
              · rw [if_pos hid]
                exact statusInSpec_applyUpdate_of _ f hf (Or.inr ⟨.error, rfl, by simp⟩)
              · rw [if_neg hid]; exact hf
  | cancelOne ok cid => exact statusInSpec_cancelConversion ok cid files h
  | progressEvent p =>
      have hp : p.status = "Converting" := hop
      show ∀ f ∈ onConversionProgress p files, statusInSpec f
      unfold onConversionProgress updateFilesByConversionId
      refine statusInSpec_map files _ h fun f hf => ?_
      by_cases hc : f.conversionId = some p.id
      · rw [if_pos hc]
        refine statusInSpec_applyUpdate_of _ f hf (Or.inr ⟨.converting, ?_, by simp⟩)
        simp [hp]
      · rw [if_neg hc]; exact hf
  | completeEvent r =>
      show ∀ f ∈ onConversionComplete r files, statusInSpec f
      unfold onConversionComplete updateFilesByConversionId
      refine statusInSpec_map files _ h fun f hf => ?_
      by_cases hc : f.conversionId = some r.id
      · rw [if_pos hc]
        refine statusInSpec_applyUpdate_of _ f hf
          (Or.inr ⟨if r.success then .completed else .error, rfl, ?_⟩)
        cases r.success <;> simp
      · rw [if_neg hc]; exact hf

theorem step_preserves_status_in_spec_inst :
    opKeepsSpecStatus (StoreOp.completeEvent completeC1ok) ∧
    (∀ f ∈ [sampleConverting], statusInSpec f) ∧
    (∀ f ∈ step (StoreOp.completeEvent completeC1ok) [sampleConverting], statusInSpec f) :=
  ⟨trivial, by decide,
    step_preserves_status_in_spec (StoreOp.completeEvent completeC1ok) [sampleConverting]
      trivial (by decide)⟩

/-- C3 counterexample: the progress event `progressC1done` (status text
`"Finalizing"`) applied to a store whose single job is converting with
correlation id `c1` writes `undefined` into that job's status — a value
outside `{pending, converting, completed, error}`. -/
theorem progress_event_sets_status_undefined :
    statusInSpec sampleConverting ∧
    ((step (StoreOp.progressEvent progressC1done) [sampleConverting]).map FileItem.status =
      [none]) ∧
    ¬ (∀ f ∈ step (StoreOp.progressEvent progressC1done) [sampleConverting], statusInSpec f) :=
  ⟨by decide, by decide,
    fun h => absurd (h { sampleConverting with status := none } (by decide)) (by decide)⟩

theorem dispatchOutcome_id (dispatch : String → Except String String) (fmt : String)
    (f : FileItem) : (dispatchOutcome dispatch fmt f).id = f.id := by
  unfold dispatchOutcome
  by_cases hc : f.status = some ConversionStatus.converting
  · rw [if_pos hc]
  · rw [if_neg hc]
    cases dispatch f.path <;> rfl

theorem dispatchStep_eq_map (dispatch : String → Except String String) (fmt : String)
    (s : List FileItem) (a : FileItem) (hs : ∀ g ∈ s, g.id = a.id → g = a) :
    dispatchStep dispatch fmt s a =
      s.map (fun g => if g.id = a.id then dispatchOutcome dispatch fmt g else g) := by
  unfold dispatchStep
  by_cases hc : a.status = some ConversionStatus.converting
  · rw [if_pos hc]
    have hpt : ∀ g ∈ s, (fun g => if g.id = a.id then dispatchOutcome dispatch fmt g else g) g =
        id g := by
      intro g hg
      by_cases hid : g.id = a.id
      · have hga : g = a := hs g hg hid
        subst hga
        simp only [if_pos hid, id]
        unfold dispatchOutcome
        rw [if_pos hc]
        simp
      · simp only [if_neg hid, id]
    rw [List.map_congr_left hpt, List.map_id]
  · rw [if_neg hc]
    cases hd : dispatch a.path with
    | ok cid =>
        unfold updateFileStatus
        refine List.map_congr_left ?_
        intro g hg
        by_cases hid : g.id = a.id
        · have hga : g = a := hs g hg hid
          subst hga
          rw [if_pos hid, if_pos hid]
          unfold dispatchOutcome
          rw [if_neg hc, hd]
        · rw [if_neg hid, if_neg hid]
    | error msg =>
        unfold updateFileStatus
        refine List.map_congr_left ?_
        intro g hg
        by_cases hid : g.id = a.id
        · have hga : g = a := hs g hg hid
          subst hga
          rw [if_pos hid, if_pos hid]
          unfold dispatchOutcome
          rw [if_neg hc, hd]
        · rw [if_neg hid, if_neg hid]

theorem foldl_dispatchStep_eq_map (dispatch : String → Except String String) (fmt : String) :
    ∀ (l s : List FileItem), (l.map FileItem.id).Nodup →
      (∀ g ∈ s, ∀ a ∈ l, g.id = a.id → g = a) →
      l.foldl (dispatchStep dispatch fmt) s =
        s.map (fun g =>
          if g.id ∈ l.map FileItem.id then dispatchOutcome dispatch fmt g else g) := by
  intro l
  induction l with
  | nil =>
      intro s _ _
      simp
  | cons a l ih =>
      intro s hnd hinj
      rw [List.foldl_cons]
      have ha : ∀ g ∈ s, g.id = a.id → g = a := fun g hg =>
        hinj g hg a (List.mem_cons_self a l)
      rw [dispatchStep_eq_map dispatch fmt s a ha]
      rw [List.map_cons] at hnd
      have hnotmem : a.id ∉ l.map FileItem.id := (List.nodup_cons.mp hnd).1
      have hnd' : (l.map FileItem.id).Nodup := (List.nodup_cons.mp hnd).2
      have hinj' : ∀ g ∈ s.map (fun g =>
            if g.id = a.id then dispatchOutcome dispatch fmt g else g),
          ∀ b ∈ l, g.id = b.id → g = b := by
        intro g hg b hb hgb
        rcases List.mem_map.mp hg with ⟨g0, hg0, rfl⟩
        by_cases hid : g0.id = a.id
        · exfalso
          rw [if_pos hid] at hgb
          rw [dispatchOutcome_id] at hgb
          exact hnotmem (hid ▸ hgb ▸ List.mem_map_of_mem FileItem.id hb)
        · rw [if_neg hid] at hgb ⊢
          exact hinj g0 hg0 b (List.mem_cons_of_mem a hb) hgb
      rw [ih _ hnd' hinj', List.map_map]
      refine List.map_congr_left ?_
      intro g hg
      simp only [Function.comp]
      by_cases hid : g.id = a.id
      · rw [if_pos hid, dispatchOutcome_id, hid, if_neg hnotmem, List.map_cons]
        rw [if_pos (List.mem_cons_self a.id (l.map FileItem.id))]
      · rw [if_neg hid, List.map_cons]
        by_cases hmem : g.id ∈ l.map FileItem.id
        · rw [if_pos hmem, if_pos (List.mem_cons_of_mem _ hmem)]
        · rw [if_neg hmem, if_neg ?_]
          rw [List.mem_cons]
          push_neg
          exact ⟨hid, hmem⟩

/-- C8: in `startConversion`, each job's final record is a function of
that job's own fields and its own engine outcome alone (so one job's
dispatch failure cannot prevent or alter any other job's dispatch): a
job already `converting` is skipped unchanged; a job whose dispatch
throws is set to `error` with message
`"Failed to start conversion: <msg>"` and its `conversionId` stays
unset; a job whose dispatch succeeds becomes `converting` with the
returned id. Requires pairwise-distinct job ids (the store creates them
with `crypto.randomUUID`). -/
theorem startConversion_isolates_failures (dispatch : String → Except String String)
    (fmt : String) (files : List FileItem) (hne : files ≠ []) (hfmt : fmt ≠ "")
    (hids : (files.map FileItem.id).Nodup) (i : Nat) (f : FileItem)
    (hf : files[i]? = some f) :
    (startConversion dispatch fmt files)[i]? = some (dispatchOutcome dispatch fmt f) ∧
    (f.status = some .converting → dispatchOutcome dispatch fmt f = f) ∧
    (∀ msg, f.status ≠ some .converting → dispatch f.path = .error msg →
      dispatchOutcome dispatch fmt f =
        { f with
          status := some .error
          errorMessage := some ("Failed to start conversion: " ++ msg) }) ∧
    (∀ cid, f.status ≠ some .converting → dispatch f.path = .ok cid →
      dispatchOutcome dispatch fmt f =
        { f with
          status := some .converting
          conversionId := some cid
          outputFormat := some fmt
          errorMessage := none }) := by
  have hinj : ∀ g ∈ files, ∀ a ∈ files, g.id = a.id → g = a := by
    intro g hg a ha hga
    exact List.inj_on_of_nodup_map hids hg ha hga
  refine ⟨?_, ?_, ?_, ?_⟩
  · unfold startConversion
    rw [if_neg (by push_neg; exact ⟨hne, hfmt⟩)]
    rw [foldl_dispatchStep_eq_map dispatch fmt files files hids hinj]
    rw [List.getElem?_map, hf]
    simp only [Option.map_some']
    rw [if_pos (List.mem_map_of_mem FileItem.id (List.getElem?_mem hf))]
  · intro hc
    unfold dispatchOutcome
    rw [if_pos hc]
  · intro msg hc hd
    unfold dispatchOutcome
    rw [if_neg hc, hd]
    rfl
  · intro cid hc hd
    unfold dispatchOutcome
    rw [if_neg hc, hd]
    rfl

theorem startConversion_isolates_failures_inst :
    ([samplePendingA, samplePendingB] ≠ ([] : List FileItem)) ∧
    (("mp4" : String) ≠ "") ∧
    (([samplePendingA, samplePendingB].map FileItem.id).Nodup) ∧
    ([samplePendingA, samplePendingB][0]? = some samplePendingA) ∧
    ([samplePendingA, samplePendingB][1]? = some samplePendingB) ∧
    (startConversion failAOnly "mp4" [samplePendingA, samplePendingB])[0]? =
      some (dispatchOutcome failAOnly "mp4" samplePendingA) ∧
    (startConversion failAOnly "mp4" [samplePendingA, samplePendingB])[1]? =
      some (dispatchOutcome failAOnly "mp4" samplePendingB) :=
  ⟨by decide, by decide, by decide, rfl, rfl,
    (startConversion_isolates_failures failAOnly "mp4" [samplePendingA, samplePendingB]
      (by decide) (by decide) (by decide) 0 samplePendingA rfl).1,
    (startConversion_isolates_failures failAOnly "mp4" [samplePendingA, samplePendingB]
      (by decide) (by decide) (by decide) 1 samplePendingB rfl).1⟩

theorem recStep_eq (recs : List String) (t : String) :
    recStep recs t = if t = "video" then recs ++ ["mp4", "webm"] else recs := by
  by_cases hv : t = "video"
  · subst hv
    rw [if_pos rfl]
    show recs ++ ["mp4"] ++ ["webm"] = recs ++ ["mp4", "webm"]
    simp
  · rw [if_neg hv]
    by_cases ha : t = "audio"
    · subst ha
      show recs ++ [] ++ [] = recs
      simp
    · by_cases hi : t = "image"
      · subst hi
        show recs ++ [] ++ [] = recs
        simp
      · show recStep recs t = recs
        unfold recStep
        rw [if_neg hv, if_neg ha, if_neg hi]

theorem foldl_recStep_eq (ts : List String) : ∀ acc : List String, ts.Nodup →
    ts.foldl recStep acc = acc ++ (if "video" ∈ ts then ["mp4", "webm"] else []) := by
  induction ts with
  | nil => intro acc _; simp
  | cons t ts ih =>
      intro acc hnd
      rw [List.foldl_cons, recStep_eq]
      by_cases hv : t = "video"
      · subst hv
        have hnv : "video" ∉ ts := (List.nodup_cons.mp hnd).1
        rw [if_pos rfl, ih _ (List.nodup_cons.mp hnd).2, if_neg hnv,
          if_pos (List.mem_cons_self _ _)]
        simp
      · rw [if_neg hv, ih _ (List.nodup_cons.mp hnd).2]
        by_cases hm : "video" ∈ ts
        · rw [if_pos hm, if_pos (List.mem_cons_of_mem _ hm)]
        · rw [if_neg hm, if_neg ?_]
          rw [List.mem_cons]
          push_neg
          exact ⟨fun h => hv h.symm, hm⟩

theorem mem_setAdd (acc : List String) (t x : String) :
    x ∈ setAdd acc t ↔ x ∈ acc ∨ x = t := by
  unfold setAdd
  by_cases h : t ∈ acc
  · rw [if_pos h]
    constructor
    · exact Or.inl
    · rintro (hx | rfl)
      · exact hx
      · exact h
  · rw [if_neg h]
    simp

theorem setAdd_nodup (acc : List String) (t : String) (h : acc.Nodup) :
    (setAdd acc t).Nodup := by
  unfold setAdd
  by_cases hm : t ∈ acc
  · rw [if_pos hm]
    exact h
  · rw [if_neg hm]
    rw [List.nodup_append]
    exact ⟨h, List.nodup_singleton t, fun a ha hb => hm ((List.mem_singleton.mp hb) ▸ ha)⟩

theorem foldl_detect_nodup (files : List NamedFile) : ∀ acc : List String, acc.Nodup →
    (files.foldl (fun acc f =>
      match detectMediaType f.name f.type with
      | some t => setAdd acc t
      | none => acc) acc).Nodup := by
  induction files with
  | nil => intro acc h; simpa
  | cons f fs ih =>
      intro acc h
      rw [List.foldl_cons]
      apply ih
      cases hd : detectMediaType f.name f.type with
      | some t => exact setAdd_nodup acc t h
      | none => exact h

theorem mem_foldl_detect (files : List NamedFile) : ∀ (acc : List String) (x : String),
    (x ∈ files.foldl (fun acc f =>
      match detectMediaType f.name f.type with
      | some t => setAdd acc t
      | none => acc) acc) ↔
    x ∈ acc ∨ ∃ f ∈ files, detectMediaType f.name f.type = some x := by
  induction files with
  | nil => intro acc x; simp
  | cons f fs ih =>
      intro acc x
      rw [List.foldl_cons, ih]
      cases hd : detectMediaType f.name f.type with
      | some t =>
          show (x ∈ setAdd acc t ∨ ∃ g ∈ fs, detectMediaType g.name g.type = some x) ↔
            x ∈ acc ∨ ∃ g ∈ f :: fs, detectMediaType g.name g.type = some x
          rw [mem_setAdd]
          constructor
          · rintro ((hx | rfl) | ⟨g, hg, hgx⟩)
            · exact Or.inl hx
            · exact Or.inr ⟨f, List.mem_cons_self f fs, hd⟩
            · exact Or.inr ⟨g, List.mem_cons_of_mem f hg, hgx⟩
          · rintro (hx | ⟨g, hg, hgx⟩)
            · exact Or.inl (Or.inl hx)
            · rcases List.mem_cons.mp hg with rfl | hg'
              · exact Or.inl (Or.inr (Option.some.inj (hgx.symm.trans hd)))
              · exact Or.inr ⟨g, hg', hgx⟩
      | none =>
          show (x ∈ acc ∨ ∃ g ∈ fs, detectMediaType g.name g.type = some x) ↔
            x ∈ acc ∨ ∃ g ∈ f :: fs, detectMediaType g.name g.type = some x
          constructor
          · rintro (hx | ⟨g, hg, hgx⟩)
            · exact Or.inl hx
            · exact Or.inr ⟨g, List.mem_cons_of_mem f hg, hgx⟩
          · rintro (hx | ⟨g, hg, hgx⟩)
            · exact Or.inl hx
            · rcases List.mem_cons.mp hg with rfl | hg'
              · rw [hd] at hgx
                exact absurd hgx (by simp)
              · exact Or.inr ⟨g, hg', hgx⟩

/-- C9 counterexample: the recommendation function is NOT `mp3` before
`aac` for audio nor `jpg` before `webp` for images: because
`BACKEND_SUPPORTED_FORMATS` contains only video formats, the backend
filter leaves no audio or image formats and the function recommends
nothing at all for an audio or image file, although the media type is
detected. -/
theorem getRecommendedFormats_audio_image_empty :
    detectMediaType "song.mp3" none = some "audio" ∧
    getRecommendedFormats [⟨"song.mp3", none⟩] = [] ∧
    detectMediaType "pic.jpg" none = some "image" ∧
    getRecommendedFormats [⟨"pic.jpg", none⟩] = [] ∧
    getBackendSupportedFormatsByType "audio" = [] ∧
    getBackendSupportedFormatsByType "image" = [] := by
  refine ⟨by decide, by decide, by decide, by decide, by decide, by decide⟩

/-- C9 (amended): `getRecommendedFormats` is a pure function of its
argument; whenever a video file is present it recommends exactly
`["mp4", "webm"]` — `mp4` ranked before `webm` — and in every other case
(audio files, image files, no detectable files) it recommends nothing,
because the backend-supported list holds only video formats. -/
theorem getRecommendedFormats_video_only (files : List NamedFile) :
    getRecommendedFormats files =
      if ∃ f ∈ files, detectMediaType f.name f.type = some "video" then ["mp4", "webm"]
      else [] := by
  unfold getRecommendedFormats
  have hnd : (detectedTypes files).Nodup := foldl_detect_nodup files [] List.nodup_nil
  show ((detectedTypes files).foldl recStep []).foldl setAdd [] = _
  rw [foldl_recStep_eq (detectedTypes files) [] hnd]
  have hmem : ("video" ∈ detectedTypes files) ↔
      ∃ f ∈ files, detectMediaType f.name f.type = some "video" := by
    show ("video" ∈ files.foldl _ []) ↔ _
    rw [mem_foldl_detect]
    simp
  by_cases hv : ∃ f ∈ files, detectMediaType f.name f.type = some "video"
  · rw [if_pos (hmem.mpr hv), if_pos hv]
    rfl
  · rw [if_neg (fun h => hv (hmem.mp h)), if_neg hv]
    rfl
